import Mathlib

/-!
Verification of the tournament-tracker meta statistics engine.

The development shallowly embeds the JavaScript of
`static/js/lib/tiers.js` and `static/js/lib/api.js`, and the epoch
resolution and derived-metric formulas documented in
`docs/02_data_model.md`, and proves the behavioural properties stated
about them.

Numeric modelling: JavaScript numbers are modelled as exact rationals
(`ℚ`); rational constants are written with `mkRat` so that every
definition evaluates inside the kernel.  The stable Array.prototype.sort
required by ES2019 is modelled by `List.insertionSort`, a stable sort
(any two stable sorts under the same comparator agree pointwise).
-/

namespace TournamentTracker

/-! ### Embedding of `static/js/lib/tiers.js` -/

/-- A faction row as consumed by `assignTiers`: `count` is the field read
by the qualification filter (the spec calls it `player_count`), and
`win_rate` stands for the metric data that the caller-supplied
`getValue` function reads. -/
structure Faction where
  count : Nat
  win_rate : ℚ
deriving Repr, DecidableEq

/-- The intermediate objects built by the first `map` in `assignTiers`:
`{ idx: i, val: getValue(f), count: f.count }`. -/
structure Item where
  idx : Nat
  val : ℚ
  count : Nat
deriving Repr, DecidableEq

/-- `TIER_CUTS = [0.15, 0.40, 0.70, 0.90]` from tiers.js. -/
def TIER_CUTS : List ℚ := [mkRat 15 100, mkRat 40 100, mkRat 70 100, mkRat 90 100]

/-- The list `items` built by `assignTiers` from its input. -/
def itemsOf (factions : List Faction) (getValue : Faction → ℚ) : List Item :=
  factions.enum.map (fun p => { idx := p.1, val := getValue p.2, count := p.2.count })

/-- Ordering used by `qualifying.sort(function(a, b) { return b.val - a.val; })`:
`a` may stay before `b` exactly when the comparator is non-positive,
i.e. `b.val ≤ a.val` (descending by value). -/
def itemDescVal (a b : Item) : Prop := b.val ≤ a.val

instance : DecidableRel itemDescVal :=
  fun a b => inferInstanceAs (Decidable (b.val ≤ a.val))

instance : IsTotal Item itemDescVal := ⟨fun a b => le_total b.val a.val⟩

instance : IsTrans Item itemDescVal := ⟨fun _ _ _ hab hbc => le_trans hbc hab⟩

/-- The `qualifying` list of tiers.js after filtering `count >= 3` and the
stable descending sort by `val`. -/
def qualifyingSorted (factions : List Faction) (getValue : Faction → ℚ) : List Item :=
  List.insertionSort itemDescVal
    ((itemsOf factions getValue).filter (fun it => decide (3 ≤ it.count)))

/-- The if/else-if cascade over `TIER_CUTS` in the body of the ranking
loop of `assignTiers`. -/
def tierOfPct (pct : ℚ) : Nat :=
  if pct ≤ TIER_CUTS[0]! then 0
  else if pct ≤ TIER_CUTS[1]! then 1
  else if pct ≤ TIER_CUTS[2]! then 2
  else if pct ≤ TIER_CUTS[3]! then 3
  else 4

/-- `var pct = n > 1 ? r / (n - 1) : 0;` with exact rational division. -/
def pctOfRank (r n : Nat) : ℚ := if 1 < n then mkRat r (n - 1) else 0

/-- The first loop of `assignTiers`: walking the ranked qualifying list,
it records `tiers[qualifying[r].idx] = tier(r, n)` for `r = r0, r0+1, …`
(the code starts at `r0 = 0`). -/
def rankedTiersAux (n : Nat) : Nat → List Item → List (Nat × Nat)
  | _, [] => []
  | r, it :: rest => (it.idx, tierOfPct (pctOfRank r n)) :: rankedTiersAux n (r + 1) rest

/-- `assignTiers` from tiers.js.  The returned JavaScript object keyed by
original index is modelled as an association list: the ranking loop
writes the qualifying entries, the second loop fills every remaining
index `j < items.length` with tier `4` (D). -/
def assignTiers (factions : List Faction) (getValue : Faction → ℚ) : List (Nat × Nat) :=
  let items := itemsOf factions getValue
  let q := qualifyingSorted factions getValue
  let ranked := rankedTiersAux q.length 0 q
  ranked ++ ((List.range items.length).filter
    (fun j => (ranked.lookup j).isNone)).map (fun j => (j, 4))

/-- Reading `tiers[j]` on the result of `assignTiers`; `none` models the
JavaScript `undefined`. -/
def tierOf (factions : List Faction) (getValue : Faction → ℚ) (j : Nat) : Option Nat :=
  (assignTiers factions getValue).lookup j

/-- Written from the spec's own words (§4.3), for the refinement
comparison with the code's computation: for `n` qualifying factions the
`r`-th ranked (0-indexed) has percentile `r / (n-1)` when `n > 1`, else
`0`, and the inclusive upper cut points `0.15`, `0.40`, `0.70`, `0.90`
give tiers S(0), A(1), B(2), C(3), else D(4). -/
def specTierOfRank (r n : Nat) : Nat :=
  let pct : ℚ := if 1 < n then (r : ℚ) / ((n : ℚ) - 1) else 0
  if pct ≤ 15/100 then 0
  else if pct ≤ 40/100 then 1
  else if pct ≤ 70/100 then 2
  else if pct ≤ 90/100 then 3
  else 4

/-! ### Embedding of epoch resolution (`docs/02_data_model.md`, `get_epoch_for_date`) -/

/-- An epoch boundary marker: the significant event starting an epoch.
The documented Rust resolver reads its date (named `start_date` in the
spec's data model) and derives the epoch id it starts. -/
structure EpochBoundary where
  id : String
  start_date : Nat
deriving Repr, DecidableEq

/-- The reserved sentinel epoch id for dates before any boundary. -/
def PRE_TRACKING_EPOCH_ID : String := "pre_tracking"

/-- One step of Rust's `Iterator::max_by_key` (which returns the last of
several equally-maximal elements). -/
def maxStep {α : Type} (key : α → Nat) (acc : Option α) (e : α) : Option α :=
  match acc with
  | none => some e
  | some m => if key m ≤ key e then some e else some m

/-- Rust's `iter().max_by_key(key)` as a left fold. -/
def max_by_key {α : Type} (key : α → Nat) (l : List α) : Option α :=
  l.foldl (maxStep key) none

/-- Modelled from the spec: `epoch_id_from_event` is called but not
defined in the repository; §4.1 says the resolver "return[s] its id",
so the epoch id derived from a boundary event is the boundary's own id. -/
def epoch_id_from_event (e : EpochBoundary) : String := e.id

/-- The `events.iter().filter(|e| e.date <= date)` stage. -/
def boundariesUpTo (date : Nat) (events : List EpochBoundary) : List EpochBoundary :=
  events.filter (fun e => decide (e.start_date ≤ date))

/-- The boundary selected by `filter(...).max_by_key(|e| e.date)`. -/
def resolvedBoundary (date : Nat) (events : List EpochBoundary) : Option EpochBoundary :=
  max_by_key (fun e => e.start_date) (boundariesUpTo date events)

/-- `get_epoch_for_date` from docs/02_data_model.md:
`filter(date ≤) → max_by_key(date) → map(epoch_id_from_event) → unwrap_or(PRE_TRACKING_EPOCH_ID)`. -/
def get_epoch_for_date (date : Nat) (events : List EpochBoundary) : String :=
  ((resolvedBoundary date events).map epoch_id_from_event).getD PRE_TRACKING_EPOCH_ID

/-! ### Derived metrics (docs/02_data_model.md, spec §4.4) -/

/-- `meta_share = player_count / total_players` (docs/02_data_model.md);
with `mkRat`'s zero-denominator convention an empty population gives 0. -/
def meta_share (player_count total_players : Nat) : ℚ :=
  mkRat player_count total_players

/-- Modelled from the spec: the Rust implementation of the derived
metrics calculator is not in the repository; docs/02_data_model.md line
259 gives `over_representation = (top_4 / total_top_4) / meta_share`
and §4.4 of the spec adds `null if meta_share == 0 or total_top4 == 0`. -/
def over_representation (top4 total_top4 player_count total_players : Nat) : Option ℚ :=
  if meta_share player_count total_players = 0 ∨ total_top4 = 0 then none
  else some (mkRat top4 total_top4 / meta_share player_count total_players)

/-! ### Aggregation of perfect starts (spec §4.2) -/

/-- A win/loss/draw record attached to a placement. -/
structure WinRecord where
  wins : Nat
  losses : Nat
  draws : Nat
deriving Repr, DecidableEq

/-- The two perfect-start counters of `FactionCounters`. -/
structure StartCounts where
  four_zero_count : Nat
  five_zero_count : Nat
deriving Repr, DecidableEq

/-- Modelled from the spec: the aggregator implementation is not in the
repository; §4.2 says to detect 4-0/5-0 starts "only when
`record.losses == 0 and record.draws == 0 and record.wins` is exactly 4
or exactly 5". -/
def updateStarts (c : StartCounts) (r : WinRecord) : StartCounts :=
  let c4 := if r.losses = 0 ∧ r.draws = 0 ∧ r.wins = 4 then
    { c with four_zero_count := c.four_zero_count + 1 } else c
  if r.losses = 0 ∧ r.draws = 0 ∧ r.wins = 5 then
    { c4 with five_zero_count := c4.five_zero_count + 1 } else c4

/-- Folding a run of placement records into the perfect-start counters. -/
def aggregateStarts (records : List WinRecord) : StartCounts :=
  records.foldl updateStarts ⟨0, 0⟩

/-! ### Embedding of `static/js/lib/api.js` -/

/-- A completed fetch response: `ok`, `status`, and the parsed JSON body
(`res.json()`), modelled abstractly as a string. -/
structure Response where
  ok : Bool
  status : Nat
  body : String
deriving Repr, DecidableEq

/-- JavaScript `v || d` for numeric arguments (`page||1`, `pageSize||20`):
`undefined` and `0` are falsy. -/
def jsOrNat (v : Option Nat) (d : Nat) : Nat :=
  match v with
  | none => d
  | some n => if n = 0 then d else n

/-- Truthiness of `epoch && epoch !== 'current'`. -/
def epochParamActive (epoch : Option String) : Bool :=
  match epoch with
  | none => false
  | some e => !e.isEmpty && e != "current"

/-- Truthiness of a plain string parameter (`if (from)`, `if (to)`). -/
def strParamActive (s : Option String) : Bool :=
  match s with
  | none => false
  | some v => !v.isEmpty

/-- URL built by `getEvents`; `enc` models `encodeURIComponent`. -/
def eventsUrl (enc : String → String) (page pageSize : Option Nat)
    (epoch fromD toD : Option String) (hasResults : Bool) : String :=
  let params := "page=" ++ toString (jsOrNat page 1)
    ++ "&page_size=" ++ toString (jsOrNat pageSize 20)
  let params := if epochParamActive epoch then
    params ++ "&epoch=" ++ enc (epoch.getD "") else params
  let params := if strParamActive fromD then
    params ++ "&from=" ++ fromD.getD "" else params
  let params := if strParamActive toD then
    params ++ "&to=" ++ toD.getD "" else params
  let params := if hasResults then params ++ "&has_results=true" else params
  "/api/events?" ++ params

/-- `getEvents` from api.js: fetch, throw on `!res.ok` (modelled as
`Except.error` carrying the thrown message), else return the body. -/
def getEvents (fetchFn : String → Response) (enc : String → String)
    (page pageSize : Option Nat) (epoch fromD toD : Option String)
    (hasResults : Bool) : Except String String :=
  let res := fetchFn (eventsUrl enc page pageSize epoch fromD toD hasResults)
  if !res.ok then Except.error ("Events API error: " ++ toString res.status)
  else Except.ok res.body

/-- URL built by `getEvent`. -/
def eventUrl (enc : String → String) (id : String) (epoch : Option String) : String :=
  let params := if epochParamActive epoch then "?epoch=" ++ enc (epoch.getD "") else ""
  "/api/events/" ++ id ++ params

/-- `getEvent` from api.js. -/
def getEvent (fetchFn : String → Response) (enc : String → String)
    (id : String) (epoch : Option String) : Except String String :=
  let res := fetchFn (eventUrl enc id epoch)
  if !res.ok then Except.error ("Event API error: " ++ toString res.status)
  else Except.ok res.body

/-- URL built by `getFactionStats` (`parts.join('&')`). -/
def factionStatsUrl (enc : String → String) (epoch fromD toD : Option String) : String :=
  let parts : List String := []
  let parts := if epochParamActive epoch then
    parts ++ ["epoch=" ++ enc (epoch.getD "")] else parts
  let parts := if strParamActive fromD then parts ++ ["from=" ++ fromD.getD ""] else parts
  let parts := if strParamActive toD then parts ++ ["to=" ++ toD.getD ""] else parts
  let params := if parts.length > 0 then "?" ++ String.intercalate "&" parts else ""
  "/api/meta/factions" ++ params

/-- `getFactionStats` from api.js. -/
def getFactionStats (fetchFn : String → Response) (enc : String → String)
    (epoch fromD toD : Option String) : Except String String :=
  let res := fetchFn (factionStatsUrl enc epoch fromD toD)
  if !res.ok then Except.error ("Meta API error: " ++ toString res.status)
  else Except.ok res.body

/-- `getEpochs` from api.js. -/
def getEpochs (fetchFn : String → Response) : Except String String :=
  let res := fetchFn "/api/epochs"
  if !res.ok then Except.error ("Epochs API error: " ++ toString res.status)
  else Except.ok res.body

/-! ### Structural lemmas about the tiers embedding -/

lemma length_itemsOf (factions : List Faction) (getValue : Faction → ℚ) :
    (itemsOf factions getValue).length = factions.length := by
  simp [itemsOf]

lemma itemsOf_get (factions : List Faction) (getValue : Faction → ℚ)
    (i : Nat) (hi : i < (itemsOf factions getValue).length) :
    (itemsOf factions getValue).get ⟨i, hi⟩ =
      { idx := i,
        val := getValue (factions.get ⟨i, by simpa [itemsOf] using hi⟩),
        count := (factions.get ⟨i, by simpa [itemsOf] using hi⟩).count } := by
  simp [itemsOf]

lemma map_idx_itemsOf (factions : List Faction) (getValue : Faction → ℚ) :
    (itemsOf factions getValue).map Item.idx = List.range factions.length := by
  unfold itemsOf
  rw [List.map_map]
  have h : (Item.idx ∘ fun p : Nat × Faction =>
      ({ idx := p.1, val := getValue p.2, count := p.2.count } : Item)) = Prod.fst := rfl
  rw [h, List.enum_map_fst]

lemma perm_qualifyingSorted (factions : List Faction) (getValue : Faction → ℚ) :
    (qualifyingSorted factions getValue).Perm
      ((itemsOf factions getValue).filter (fun it => decide (3 ≤ it.count))) :=
  List.perm_insertionSort _ _

lemma nodup_idx_qualifyingSorted (factions : List Faction) (getValue : Faction → ℚ) :
    ((qualifyingSorted factions getValue).map Item.idx).Nodup := by
  have hsub : (((itemsOf factions getValue).filter
      (fun it => decide (3 ≤ it.count))).map Item.idx).Sublist
      ((itemsOf factions getValue).map Item.idx) :=
    (List.filter_sublist _).map _
  have hnd : (((itemsOf factions getValue).filter
      (fun it => decide (3 ≤ it.count))).map Item.idx).Nodup := by
    refine hsub.nodup ?_
    rw [map_idx_itemsOf]
    exact List.nodup_range _
  exact (((perm_qualifyingSorted factions getValue).map Item.idx).symm.nodup hnd)

lemma idx_lt_of_mem_qualifyingSorted (factions : List Faction) (getValue : Faction → ℚ)
    {j : Nat} (hj : j ∈ (qualifyingSorted factions getValue).map Item.idx) :
    j < factions.length := by
  have h1 : j ∈ ((itemsOf factions getValue).filter
      (fun it => decide (3 ≤ it.count))).map Item.idx :=
    ((perm_qualifyingSorted factions getValue).map Item.idx).mem_iff.mp hj
  have h2 : j ∈ (itemsOf factions getValue).map Item.idx :=
    ((List.filter_sublist _).map Item.idx).subset h1
  rw [map_idx_itemsOf] at h2
  exact List.mem_range.mp h2

lemma itemsOf_get_idx (factions : List Faction) (getValue : Faction → ℚ)
    (i : Nat) (hi : i < (itemsOf factions getValue).length) :
    ((itemsOf factions getValue).get ⟨i, hi⟩).idx = i := by
  simp [itemsOf]

lemma itemsOf_get_count (factions : List Faction) (getValue : Faction → ℚ)
    (i : Nat) (hi : i < (itemsOf factions getValue).length)
    (hi2 : i < factions.length) :
    ((itemsOf factions getValue).get ⟨i, hi⟩).count = (factions.get ⟨i, hi2⟩).count := by
  simp [itemsOf]

lemma count_ge_of_mem_qualifyingSorted (factions : List Faction) (getValue : Faction → ℚ)
    {j : Nat} (hj : j ∈ (qualifyingSorted factions getValue).map Item.idx)
    (hlt : j < factions.length) :
    3 ≤ (factions.get ⟨j, hlt⟩).count := by
  have h1 : j ∈ ((itemsOf factions getValue).filter
      (fun it => decide (3 ≤ it.count))).map Item.idx :=
    ((perm_qualifyingSorted factions getValue).map Item.idx).mem_iff.mp hj
  rcases List.mem_map.mp h1 with ⟨it, hmem, hidx⟩
  have hcnt : 3 ≤ it.count := by
    have := List.of_mem_filter hmem
    simpa using this
  have hmem2 : it ∈ itemsOf factions getValue := List.mem_of_mem_filter hmem
  rcases List.mem_iff_get.mp hmem2 with ⟨i, hget⟩
  have hidx2 : it.idx = i.1 := by
    rw [← hget]
    exact itemsOf_get_idx factions getValue i.1 i.2
  have hij : i.1 = j := by rw [← hidx, hidx2]
  subst hij
  have hcnteq : it.count = (factions.get ⟨i.1, hlt⟩).count := by
    rw [← hget]
    exact itemsOf_get_count factions getValue i.1 i.2 hlt
  rw [hcnteq] at hcnt
  exact hcnt

lemma lookup_cons_ne {β : Type} {j k : Nat} {v : β} {l : List (Nat × β)} (h : ¬ (j = k)) :
    List.lookup j ((k, v) :: l) = List.lookup j l := by
  have hb : (j == k) = false := beq_eq_false_iff_ne.mpr h
  simp [List.lookup, hb]

lemma lookup_rankedTiersAux_get (n : Nat) (q : List Item) :
    ∀ (r0 k : Nat) (hk : k < q.length), (q.map Item.idx).Nodup →
      (rankedTiersAux n r0 q).lookup (q.get ⟨k, hk⟩).idx
        = some (tierOfPct (pctOfRank (r0 + k) n)) := by
  induction q with
  | nil => intro r0 k hk _; simp at hk
  | cons it rest ih =>
    intro r0 k hk hnd
    rw [List.map_cons] at hnd
    rcases List.nodup_cons.mp hnd with ⟨hnotmem, hndrest⟩
    cases k with
    | zero =>
      simp [rankedTiersAux, List.lookup]
    | succ k =>
      have hk2 : k < rest.length := by simpa using hk
      have hmem : (rest.get ⟨k, hk2⟩).idx ∈ rest.map Item.idx :=
        List.mem_map.mpr ⟨rest.get ⟨k, hk2⟩, List.get_mem _ _ _, rfl⟩
      have hne : ¬ ((rest.get ⟨k, hk2⟩).idx = it.idx) := by
        intro h
        exact hnotmem (h ▸ hmem)
      have hstep := ih (r0 + 1) k hk2 hndrest
      have harith : r0 + 1 + k = r0 + (k + 1) := by omega
      rw [harith] at hstep
      simp only [rankedTiersAux, List.get_cons_succ]
      rw [lookup_cons_ne hne]
      exact hstep

lemma lookup_rankedTiersAux_eq_none (n : Nat) (q : List Item) :
    ∀ (r0 j : Nat), j ∉ q.map Item.idx → (rankedTiersAux n r0 q).lookup j = none := by
  induction q with
  | nil => intro r0 j _; simp [rankedTiersAux]
  | cons it rest ih =>
    intro r0 j hj
    have hne : ¬ (j = it.idx) := by
      intro h; exact hj (by simp [h])
    have hrest : j ∉ rest.map Item.idx := by
      intro h; exact hj (by simp [h])
    simp only [rankedTiersAux]
    rw [lookup_cons_ne hne]
    exact ih (r0 + 1) j hrest

lemma lookup_pair_map (l : List Nat) (j : Nat) :
    (j ∈ l → (l.map (fun k => (k, 4))).lookup j = some 4)
    ∧ (j ∉ l → (l.map (fun k => (k, 4))).lookup j = none) := by
  induction l with
  | nil => simp
  | cons k rest ih =>
    constructor
    · intro hmem
      by_cases h : j = k
      · simp [List.lookup, h]
      · have hr : j ∈ rest := by
          rcases List.mem_cons.mp hmem with h1 | h1
          · exact absurd h1 h
          · exact h1
        rw [List.map_cons, lookup_cons_ne h]
        exact ih.1 hr
    · intro hmem
      have h : ¬ (j = k) := fun h => hmem (by simp [h])
      have hrest : j ∉ rest := fun hr => hmem (List.mem_cons.mpr (Or.inr hr))
      rw [List.map_cons, lookup_cons_ne h]
      exact ih.2 hrest

/-! ### Characterization of `tierOf` -/

lemma tierOf_rank (factions : List Faction) (getValue : Faction → ℚ)
    (k : Nat) (hk : k < (qualifyingSorted factions getValue).length) :
    tierOf factions getValue ((qualifyingSorted factions getValue).get ⟨k, hk⟩).idx
      = some (tierOfPct (pctOfRank k (qualifyingSorted factions getValue).length)) := by
  simp only [tierOf, assignTiers]
  rw [List.lookup_append]
  have h := lookup_rankedTiersAux_get (qualifyingSorted factions getValue).length
    (qualifyingSorted factions getValue) 0 k hk (nodup_idx_qualifyingSorted factions getValue)
  rw [Nat.zero_add] at h
  rw [h]
  rfl

lemma tierOf_of_mem_idx (factions : List Faction) (getValue : Faction → ℚ)
    {j : Nat} (hj : j ∈ (qualifyingSorted factions getValue).map Item.idx) :
    ∃ k : Fin (qualifyingSorted factions getValue).length,
      ((qualifyingSorted factions getValue).get k).idx = j ∧
      tierOf factions getValue j
        = some (tierOfPct (pctOfRank k.1 (qualifyingSorted factions getValue).length)) := by
  rcases List.mem_map.mp hj with ⟨it, hmem, hidx⟩
  rcases List.mem_iff_get.mp hmem with ⟨k, hget⟩
  refine ⟨k, by rw [hget, hidx], ?_⟩
  rw [← hidx, ← hget]
  exact tierOf_rank factions getValue k.1 k.2

lemma tierOf_not_mem (factions : List Faction) (getValue : Faction → ℚ)
    {j : Nat} (hlt : j < factions.length)
    (hnot : j ∉ (qualifyingSorted factions getValue).map Item.idx) :
    tierOf factions getValue j = some 4 := by
  simp only [tierOf, assignTiers]
  rw [List.lookup_append]
  rw [lookup_rankedTiersAux_eq_none _ _ 0 j hnot]
  have hjmem : j ∈ (List.range (itemsOf factions getValue).length).filter
      (fun j => ((rankedTiersAux (qualifyingSorted factions getValue).length 0
        (qualifyingSorted factions getValue)).lookup j).isNone) := by
    refine List.mem_filter.mpr ⟨?_, ?_⟩
    · refine List.mem_range.mpr ?_
      rw [length_itemsOf]
      exact hlt
    · rw [lookup_rankedTiersAux_eq_none _ _ 0 j hnot]
      rfl
  rw [(lookup_pair_map _ j).1 hjmem]
  rfl

lemma tierOf_out_of_range (factions : List Faction) (getValue : Faction → ℚ)
    {j : Nat} (hge : factions.length ≤ j) :
    tierOf factions getValue j = none := by
  have hnot : j ∉ (qualifyingSorted factions getValue).map Item.idx := fun h =>
    absurd (idx_lt_of_mem_qualifyingSorted factions getValue h) (by omega)
  simp only [tierOf, assignTiers]
  rw [List.lookup_append]
  rw [lookup_rankedTiersAux_eq_none _ _ 0 j hnot]
  have hjnot : j ∉ (List.range (itemsOf factions getValue).length).filter
      (fun j => ((rankedTiersAux (qualifyingSorted factions getValue).length 0
        (qualifyingSorted factions getValue)).lookup j).isNone) := by
    intro h
    have := List.mem_range.mp ((List.mem_filter.mp h).1)
    rw [length_itemsOf] at this
    omega
  rw [(lookup_pair_map _ j).2 hjnot]
  rfl

/-! ### Arithmetic facts about percentiles and cut points -/

lemma tierOfPct_le_four (p : ℚ) : tierOfPct p ≤ 4 := by
  unfold tierOfPct
  split_ifs <;> omega

lemma pctOfRank_zero (n : Nat) : pctOfRank 0 n = 0 := by
  unfold pctOfRank
  split_ifs with h
  · rw [Rat.mkRat_eq_div]
    simp
  · rfl

lemma pctOfRank_last (n : Nat) (h : 2 ≤ n) : pctOfRank (n - 1) n = 1 := by
  unfold pctOfRank
  rw [if_pos (by omega : 1 < n), Rat.mkRat_eq_div]
  have hnum : (((n - 1 : ℕ) : ℤ) : ℚ) = ((n - 1 : ℕ) : ℚ) := by push_cast; ring
  rw [hnum, div_self (Nat.cast_ne_zero.mpr (by omega : n - 1 ≠ 0))]

lemma tierOfPct_zero : tierOfPct 0 = 0 := by decide

lemma tierOfPct_one : tierOfPct 1 = 4 := by decide

lemma tierOfPct_eq (p : ℚ) : tierOfPct p =
    if p ≤ 15/100 then 0 else if p ≤ 40/100 then 1 else if p ≤ 70/100 then 2
    else if p ≤ 90/100 then 3 else 4 := by
  unfold tierOfPct
  have c0 : (TIER_CUTS[0]! : ℚ) = 15/100 := by
    rw [show (TIER_CUTS[0]! : ℚ) = mkRat 15 100 from rfl, Rat.mkRat_eq_div]
    norm_num
  have c1 : (TIER_CUTS[1]! : ℚ) = 40/100 := by
    rw [show (TIER_CUTS[1]! : ℚ) = mkRat 40 100 from rfl, Rat.mkRat_eq_div]
    norm_num
  have c2 : (TIER_CUTS[2]! : ℚ) = 70/100 := by
    rw [show (TIER_CUTS[2]! : ℚ) = mkRat 70 100 from rfl, Rat.mkRat_eq_div]
    norm_num
  have c3 : (TIER_CUTS[3]! : ℚ) = 90/100 := by
    rw [show (TIER_CUTS[3]! : ℚ) = mkRat 90 100 from rfl, Rat.mkRat_eq_div]
    norm_num
  rw [c0, c1, c2, c3]

lemma pctOfRank_eq_div (r n : Nat) :
    pctOfRank r n = if 1 < n then (r : ℚ) / ((n : ℚ) - 1) else 0 := by
  unfold pctOfRank
  split_ifs with h
  · rw [Rat.mkRat_eq_div]
    have hden : ((n - 1 : ℕ) : ℚ) = (n : ℚ) - 1 := by
      have h1 : 1 ≤ n := by omega
      push_cast [Nat.cast_sub h1]
      ring
    rw [hden]
    congr 1
  · rfl

lemma specTierOfRank_eq (r n : Nat) : specTierOfRank r n = tierOfPct (pctOfRank r n) := by
  rw [tierOfPct_eq, pctOfRank_eq_div]
  rfl

lemma sorted_qualifyingSorted (factions : List Faction) (getValue : Faction → ℚ) :
    List.Sorted itemDescVal (qualifyingSorted factions getValue) :=
  List.sorted_insertionSort _ _

/-! ### Lemmas about `max_by_key` and epoch resolution -/

lemma foldl_maxStep_eq_none {α : Type} (key : α → Nat) :
    ∀ (l : List α) (acc : Option α), l.foldl (maxStep key) acc = none ↔ acc = none ∧ l = [] := by
  intro l
  induction l with
  | nil => intro acc; simp
  | cons e rest ih =>
    intro acc
    constructor
    · intro h
      rw [List.foldl_cons] at h
      rcases (ih (maxStep key acc e)).mp h with ⟨h1, -⟩
      exfalso
      cases acc with
      | none => simp [maxStep] at h1
      | some m =>
        by_cases hk : key m ≤ key e <;> simp [maxStep, hk] at h1
    · rintro ⟨-, h⟩
      cases h

lemma max_by_key_eq_none {α : Type} (key : α → Nat) (l : List α) :
    max_by_key key l = none ↔ l = [] := by
  unfold max_by_key
  rw [foldl_maxStep_eq_none]
  simp

lemma foldl_maxStep_mem {α : Type} (key : α → Nat) :
    ∀ (l : List α) (acc : Option α) (m : α),
      l.foldl (maxStep key) acc = some m → acc = some m ∨ m ∈ l := by
  intro l
  induction l with
  | nil =>
    intro acc m h
    simp only [List.foldl_nil] at h
    exact Or.inl h
  | cons e rest ih =>
    intro acc m h
    rw [List.foldl_cons] at h
    rcases ih (maxStep key acc e) m h with h1 | h1
    · cases acc with
      | none =>
        have he : e = m := by simpa [maxStep] using h1
        exact Or.inr (he ▸ List.mem_cons_self e rest)
      | some a =>
        by_cases hk : key a ≤ key e
        · have he : e = m := by simpa [maxStep, hk] using h1
          exact Or.inr (he ▸ List.mem_cons_self e rest)
        · have ha : a = m := by simpa [maxStep, hk] using h1
          exact Or.inl (by rw [ha])
    · exact Or.inr (List.mem_cons_of_mem e h1)

lemma maxStep_le {α : Type} (key : α → Nat) (acc : Option α) (e b : α)
    (hb : maxStep key acc e = some b) :
    key e ≤ key b ∧ ∀ a, acc = some a → key a ≤ key b := by
  cases acc with
  | none =>
    have he : e = b := by simpa [maxStep] using hb
    subst he
    exact ⟨le_refl _, by intro a ha; simp at ha⟩
  | some a0 =>
    by_cases hk : key a0 ≤ key e
    · have he : e = b := by simpa [maxStep, hk] using hb
      subst he
      refine ⟨le_refl _, ?_⟩
      intro a ha
      obtain rfl : a0 = a := Option.some.inj ha
      exact hk
    · have ha0 : a0 = b := by simpa [maxStep, hk] using hb
      subst ha0
      refine ⟨le_of_not_le hk, ?_⟩
      intro a ha
      obtain rfl : a0 = a := Option.some.inj ha
      exact le_refl _

lemma foldl_maxStep_le {α : Type} (key : α → Nat) :
    ∀ (l : List α) (acc : Option α) (m : α), l.foldl (maxStep key) acc = some m →
      (∀ a, acc = some a → key a ≤ key m) ∧ (∀ e ∈ l, key e ≤ key m) := by
  intro l
  induction l with
  | nil =>
    intro acc m h
    simp only [List.foldl_nil] at h
    constructor
    · intro a ha
      rw [h] at ha
      obtain rfl : m = a := Option.some.inj ha
      exact le_refl _
    · intro e he
      simp at he
  | cons e rest ih =>
    intro acc m h
    rw [List.foldl_cons] at h
    have hmain := ih (maxStep key acc e) m h
    cases hms : maxStep key acc e with
    | none =>
      exfalso
      cases acc with
      | none => simp [maxStep] at hms
      | some a =>
        by_cases hk : key a ≤ key e <;> simp [maxStep, hk] at hms
    | some b =>
      have hbm : key b ≤ key m := hmain.1 b hms
      have hstep := maxStep_le key acc e b hms
      constructor
      · intro a ha
        exact le_trans (hstep.2 a ha) hbm
      · intro x hx
        rcases List.mem_cons.mp hx with rfl | hx2
        · exact le_trans hstep.1 hbm
        · exact hmain.2 x hx2

lemma max_by_key_mem {α : Type} (key : α → Nat) {l : List α} {m : α}
    (h : max_by_key key l = some m) : m ∈ l := by
  rcases foldl_maxStep_mem key l none m h with h1 | h1
  · simp at h1
  · exact h1

lemma max_by_key_le {α : Type} (key : α → Nat) {l : List α} {m : α}
    (h : max_by_key key l = some m) : ∀ e ∈ l, key e ≤ key m :=
  (foldl_maxStep_le key l none m h).2

lemma max_by_key_isSome {α : Type} (key : α → Nat) {l : List α} (h : l ≠ []) :
    ∃ m, max_by_key key l = some m := by
  cases hm : max_by_key key l with
  | none => exact absurd ((max_by_key_eq_none key l).mp hm) h
  | some m => exact ⟨m, rfl⟩

lemma resolvedBoundary_spec (date : Nat) (events : List EpochBoundary) {b : EpochBoundary}
    (h : resolvedBoundary date events = some b) :
    b ∈ events ∧ b.start_date ≤ date ∧
      ∀ e ∈ events, e.start_date ≤ date → e.start_date ≤ b.start_date := by
  have hmem := max_by_key_mem _ h
  have hsplit := List.mem_filter.mp hmem
  refine ⟨hsplit.1, by simpa using hsplit.2, ?_⟩
  intro e he hle
  exact max_by_key_le _ h e (List.mem_filter.mpr ⟨he, by simpa using hle⟩)

lemma resolvedBoundary_isSome (date : Nat) (events : List EpochBoundary)
    (h : ∃ e ∈ events, e.start_date ≤ date) :
    ∃ b, resolvedBoundary date events = some b := by
  apply max_by_key_isSome
  rcases h with ⟨e, he, hle⟩
  intro hnil
  have hm : e ∈ boundariesUpTo date events := List.mem_filter.mpr ⟨he, by simpa using hle⟩
  rw [hnil] at hm
  simp at hm

lemma resolvedBoundary_eq_none (date : Nat) (events : List EpochBoundary)
    (h : ∀ e ∈ events, date < e.start_date) : resolvedBoundary date events = none := by
  unfold resolvedBoundary
  rw [max_by_key_eq_none]
  unfold boundariesUpTo
  rw [List.filter_eq_nil_iff]
  intro e he
  simpa using Nat.not_le.mpr (h e he)

/-! ### Claim theorems -/

/-- C1: `assignTiers` ranks the qualifying factions (`count >= 3`) descending
by value; the `r`-th ranked of `n` qualifying factions receives exactly the
tier the spec's percentile rule (`r/(n-1)` when `n>1`, else `0`; inclusive
cuts `0.15`/`0.40`/`0.70`/`0.90`) prescribes; a single qualifying faction
always receives tier S. -/
theorem assignTiers_percentile_tiers (factions : List Faction) (getValue : Faction → ℚ) :
    (qualifyingSorted factions getValue).Perm
      ((itemsOf factions getValue).filter (fun it => decide (3 ≤ it.count)))
    ∧ List.Sorted itemDescVal (qualifyingSorted factions getValue)
    ∧ (∀ (k : Nat) (hk : k < (qualifyingSorted factions getValue).length),
        tierOf factions getValue ((qualifyingSorted factions getValue).get ⟨k, hk⟩).idx
          = some (specTierOfRank k (qualifyingSorted factions getValue).length))
    ∧ (∀ it : Item, qualifyingSorted factions getValue = [it] →
        tierOf factions getValue it.idx = some 0) := by
  refine ⟨perm_qualifyingSorted factions getValue,
    sorted_qualifyingSorted factions getValue, ?_, ?_⟩
  · intro k hk
    rw [specTierOfRank_eq]
    exact tierOf_rank factions getValue k hk
  · intro it hq
    have hmem : it ∈ qualifyingSorted factions getValue := by
      rw [hq]
      exact List.mem_cons_self it []
    rcases tierOf_of_mem_idx factions getValue
        (List.mem_map_of_mem Item.idx hmem) with ⟨k, -, htier⟩
    have hlen : (qualifyingSorted factions getValue).length = 1 := by rw [hq]; rfl
    have h2 := k.2
    have hk0 : k.1 = 0 := by omega
    rw [hk0, pctOfRank_zero, tierOfPct_zero] at htier
    exact htier

/-- C1 witness: a single qualifying faction gets percentile 0 and tier S. -/
theorem assignTiers_percentile_tiers_witness :
    tierOf [⟨10, 5⟩] Faction.win_rate
        ((qualifyingSorted [⟨10, 5⟩] Faction.win_rate).get ⟨0, by decide⟩).idx
      = some (specTierOfRank 0 (qualifyingSorted [⟨10, 5⟩] Faction.win_rate).length)
    ∧ tierOf [⟨10, 5⟩] Faction.win_rate (Item.mk 0 5 10).idx = some 0 :=
  ⟨(assignTiers_percentile_tiers [⟨10, 5⟩] Faction.win_rate).2.2.1 0 (by decide),
   (assignTiers_percentile_tiers [⟨10, 5⟩] Faction.win_rate).2.2.2 (Item.mk 0 5 10) (by decide)⟩

/-- C2: every faction with `count < 3` is assigned tier D (index 4) by
`assignTiers`, regardless of its metric value. -/
theorem assignTiers_unqualified_tier_D (factions : List Faction) (getValue : Faction → ℚ)
    (j : Nat) (hj : j < factions.length)
    (hcount : (factions.get ⟨j, hj⟩).count < 3) :
    tierOf factions getValue j = some 4 := by
  apply tierOf_not_mem factions getValue hj
  intro hmem
  exact absurd (count_ge_of_mem_qualifyingSorted factions getValue hmem hj) (by omega)

/-- C2 witness: a two-player faction with an excellent metric still lands in D. -/
theorem assignTiers_unqualified_tier_D_witness :
    tierOf [⟨2, 100⟩] Faction.win_rate 0 = some 4 :=
  assignTiers_unqualified_tier_D [⟨2, 100⟩] Faction.win_rate 0 (by decide) (by decide)

/-- C9: `assignTiers` is total over the input: every index below the input
length is mapped to a tier, and every assigned tier is one of the five
valid indices 0 (S) through 4 (D). -/
theorem assignTiers_total (factions : List Faction) (getValue : Faction → ℚ)
    (j : Nat) (hj : j < factions.length) :
    ∃ t, tierOf factions getValue j = some t ∧ t ≤ 4 := by
  by_cases hmem : j ∈ (qualifyingSorted factions getValue).map Item.idx
  · rcases tierOf_of_mem_idx factions getValue hmem with ⟨k, -, htier⟩
    exact ⟨_, htier, tierOfPct_le_four _⟩
  · exact ⟨4, tierOf_not_mem factions getValue hj hmem, le_refl 4⟩

/-- C9 witness: instantiated on a mixed qualified/unqualified input. -/
theorem assignTiers_total_witness :
    ∃ t, tierOf [⟨1, 9⟩, ⟨4, 7⟩] Faction.win_rate 0 = some t ∧ t ≤ 4 :=
  assignTiers_total [⟨1, 9⟩, ⟨4, 7⟩] Faction.win_rate 0 (by decide)

/-- C3: with exactly one qualifying faction, exactly one index in the whole
output carries tier S; with at least 7 qualifying factions, rank 0 is
always S and rank `n-1` is always D. -/
theorem assignTiers_tier_invariant (factions : List Faction) (getValue : Faction → ℚ) :
    ((qualifyingSorted factions getValue).length = 1 →
      ∃! j : Nat, tierOf factions getValue j = some 0)
    ∧ (7 ≤ (qualifyingSorted factions getValue).length →
      ∀ (h0 : 0 < (qualifyingSorted factions getValue).length)
        (hl : (qualifyingSorted factions getValue).length - 1
          < (qualifyingSorted factions getValue).length),
        tierOf factions getValue
            ((qualifyingSorted factions getValue).get ⟨0, h0⟩).idx = some 0
        ∧ tierOf factions getValue
            ((qualifyingSorted factions getValue).get
              ⟨(qualifyingSorted factions getValue).length - 1, hl⟩).idx = some 4) := by
  constructor
  · intro hn
    obtain ⟨it, hq⟩ := List.length_eq_one.mp hn
    have hmem : it ∈ qualifyingSorted factions getValue := by
      rw [hq]
      exact List.mem_cons_self it []
    have hex : tierOf factions getValue it.idx = some 0 := by
      rcases tierOf_of_mem_idx factions getValue
          (List.mem_map_of_mem Item.idx hmem) with ⟨k, -, htier⟩
      have h2 := k.2
      have hk0 : k.1 = 0 := by omega
      rw [hk0, pctOfRank_zero, tierOfPct_zero] at htier
      exact htier
    refine ⟨it.idx, hex, ?_⟩
    intro j hj0
    by_cases hlt : j < factions.length
    · by_cases hmem2 : j ∈ (qualifyingSorted factions getValue).map Item.idx
      · rw [hq] at hmem2
        simpa using hmem2
      · rw [tierOf_not_mem factions getValue hlt hmem2] at hj0
        cases hj0
    · rw [tierOf_out_of_range factions getValue (by omega)] at hj0
      cases hj0
  · intro hn h0 hl
    constructor
    · rw [tierOf_rank factions getValue 0 h0, pctOfRank_zero, tierOfPct_zero]
    · rw [tierOf_rank factions getValue _ hl, pctOfRank_last _ (by omega), tierOfPct_one]

/-- C3 witness: a lone qualifying faction, and a 7-faction qualifying set
whose best rank is S and worst rank is D. -/
theorem assignTiers_tier_invariant_witness :
    (∃! j : Nat, tierOf [⟨10, 5⟩, ⟨1, 9⟩] Faction.win_rate j = some 0)
    ∧ (tierOf [⟨3, 7⟩, ⟨3, 6⟩, ⟨3, 5⟩, ⟨3, 4⟩, ⟨3, 3⟩, ⟨3, 2⟩, ⟨3, 1⟩] Faction.win_rate
        ((qualifyingSorted [⟨3, 7⟩, ⟨3, 6⟩, ⟨3, 5⟩, ⟨3, 4⟩, ⟨3, 3⟩, ⟨3, 2⟩, ⟨3, 1⟩]
          Faction.win_rate).get ⟨0, by decide⟩).idx = some 0
      ∧ tierOf [⟨3, 7⟩, ⟨3, 6⟩, ⟨3, 5⟩, ⟨3, 4⟩, ⟨3, 3⟩, ⟨3, 2⟩, ⟨3, 1⟩] Faction.win_rate
        ((qualifyingSorted [⟨3, 7⟩, ⟨3, 6⟩, ⟨3, 5⟩, ⟨3, 4⟩, ⟨3, 3⟩, ⟨3, 2⟩, ⟨3, 1⟩]
            Faction.win_rate).get
          ⟨(qualifyingSorted [⟨3, 7⟩, ⟨3, 6⟩, ⟨3, 5⟩, ⟨3, 4⟩, ⟨3, 3⟩, ⟨3, 2⟩, ⟨3, 1⟩]
            Faction.win_rate).length - 1, by decide⟩).idx = some 4) :=
  ⟨(assignTiers_tier_invariant [⟨10, 5⟩, ⟨1, 9⟩] Faction.win_rate).1 (by decide),
   (assignTiers_tier_invariant [⟨3, 7⟩, ⟨3, 6⟩, ⟨3, 5⟩, ⟨3, 4⟩, ⟨3, 3⟩, ⟨3, 2⟩, ⟨3, 1⟩]
      Faction.win_rate).2 (by decide) (by decide) (by decide)⟩

/-- C4: tier assignment is deterministic (equal inputs give equal outputs),
and the ranking sort is stable: two qualifying entries with equal values
keep their original relative order in the ranked qualifying list. -/
theorem assignTiers_deterministic_stable (factions factions2 : List Faction)
    (getValue getValue2 : Faction → ℚ) :
    (factions = factions2 → getValue = getValue2 →
      assignTiers factions getValue = assignTiers factions2 getValue2)
    ∧ ∀ (i j : Nat) (hi : i < (itemsOf factions getValue).length)
        (hj : j < (itemsOf factions getValue).length), i < j →
        3 ≤ ((itemsOf factions getValue).get ⟨i, hi⟩).count →
        3 ≤ ((itemsOf factions getValue).get ⟨j, hj⟩).count →
        ((itemsOf factions getValue).get ⟨i, hi⟩).val
          = ((itemsOf factions getValue).get ⟨j, hj⟩).val →
        [(itemsOf factions getValue).get ⟨i, hi⟩,
          (itemsOf factions getValue).get ⟨j, hj⟩].Sublist
          (qualifyingSorted factions getValue) := by
  constructor
  · rintro rfl rfl
    rfl
  · intro i j hi hj hij hci hcj hval
    apply List.pair_sublist_insertionSort
    · show itemDescVal _ _
      unfold itemDescVal
      exact le_of_eq hval.symm
    · have hpw : List.Pairwise (fun a b : Fin (itemsOf factions getValue).length => a.1 < b.1)
          [⟨i, hi⟩, ⟨j, hj⟩] := by
        simp [hij]
      have hpair := List.map_get_sublist (l := itemsOf factions getValue) hpw
      simp only [List.map_cons, List.map_nil] at hpair
      have hfil := hpair.filter (fun it => decide (3 ≤ it.count))
      have heq : ([(itemsOf factions getValue).get ⟨i, hi⟩,
          (itemsOf factions getValue).get ⟨j, hj⟩].filter (fun it => decide (3 ≤ it.count)))
          = [(itemsOf factions getValue).get ⟨i, hi⟩,
            (itemsOf factions getValue).get ⟨j, hj⟩] := by
        rw [List.filter_cons_of_pos (by simpa using hci),
          List.filter_cons_of_pos (by simpa using hcj), List.filter_nil]
      rw [heq] at hfil
      exact hfil

/-- C4 witness: two equal-valued qualifying factions stay in input order. -/
theorem assignTiers_deterministic_stable_witness :
    assignTiers [⟨5, 3⟩, ⟨6, 3⟩] Faction.win_rate = assignTiers [⟨5, 3⟩, ⟨6, 3⟩] Faction.win_rate
    ∧ [(itemsOf [⟨5, 3⟩, ⟨6, 3⟩] Faction.win_rate).get ⟨0, by decide⟩,
        (itemsOf [⟨5, 3⟩, ⟨6, 3⟩] Faction.win_rate).get ⟨1, by decide⟩].Sublist
        (qualifyingSorted [⟨5, 3⟩, ⟨6, 3⟩] Faction.win_rate) :=
  ⟨(assignTiers_deterministic_stable [⟨5, 3⟩, ⟨6, 3⟩] [⟨5, 3⟩, ⟨6, 3⟩]
      Faction.win_rate Faction.win_rate).1 rfl rfl,
   (assignTiers_deterministic_stable [⟨5, 3⟩, ⟨6, 3⟩] [⟨5, 3⟩, ⟨6, 3⟩]
      Faction.win_rate Faction.win_rate).2 0 1 (by decide) (by decide)
      (by decide) (by decide) (by decide) (by decide)⟩

/-- C5: epoch resolution selects, among the boundaries with
`start_date <= date`, the one with maximal `start_date` and returns its
id; with no qualifying boundary (in particular an empty boundary set) it
returns the `pre_tracking` sentinel, and it is total. -/
theorem get_epoch_for_date_selects_latest (date : Nat) (events : List EpochBoundary) :
    ((∀ e ∈ events, date < e.start_date) →
      get_epoch_for_date date events = PRE_TRACKING_EPOCH_ID)
    ∧ (∀ b : EpochBoundary, resolvedBoundary date events = some b →
        b ∈ events ∧ b.start_date ≤ date ∧
        (∀ e ∈ events, e.start_date ≤ date → e.start_date ≤ b.start_date) ∧
        get_epoch_for_date date events = b.id)
    ∧ ((∃ e ∈ events, e.start_date ≤ date) →
        ∃ b : EpochBoundary, resolvedBoundary date events = some b)
    ∧ (events = [] → get_epoch_for_date date events = PRE_TRACKING_EPOCH_ID) := by
  refine ⟨?_, ?_, ?_, ?_⟩
  · intro h
    unfold get_epoch_for_date
    rw [resolvedBoundary_eq_none date events h]
    rfl
  · intro b hb
    have hs := resolvedBoundary_spec date events hb
    refine ⟨hs.1, hs.2.1, hs.2.2, ?_⟩
    unfold get_epoch_for_date
    rw [hb]
    rfl
  · exact resolvedBoundary_isSome date events
  · intro h
    subst h
    rfl

/-- C5 witness: a date before the only boundary resolves to the sentinel,
a later date resolves to that boundary's id, and the empty set resolves
to the sentinel. -/
theorem get_epoch_for_date_selects_latest_witness :
    get_epoch_for_date 0 [⟨"e1", 5⟩] = PRE_TRACKING_EPOCH_ID
    ∧ get_epoch_for_date 10 [⟨"e1", 5⟩] = "e1"
    ∧ (∃ b, resolvedBoundary 10 [⟨"e1", 5⟩] = some b)
    ∧ get_epoch_for_date 7 ([] : List EpochBoundary) = PRE_TRACKING_EPOCH_ID :=
  ⟨(get_epoch_for_date_selects_latest 0 [⟨"e1", 5⟩]).1 (by decide),
   ((get_epoch_for_date_selects_latest 10 [⟨"e1", 5⟩]).2.1 ⟨"e1", 5⟩ (by decide)).2.2.2,
   (get_epoch_for_date_selects_latest 10 [⟨"e1", 5⟩]).2.2.1 ⟨⟨"e1", 5⟩, by decide, by decide⟩,
   (get_epoch_for_date_selects_latest 7 []).2.2.2 rfl⟩

/-- C6: epoch resolution is monotonic: if `date1 < date2` and both dates
resolve to tracked boundaries, the boundary returned for `date2` starts
no earlier than the one returned for `date1`. -/
theorem get_epoch_for_date_monotonic (date1 date2 : Nat) (events : List EpochBoundary)
    (b1 b2 : EpochBoundary) (h12 : date1 < date2)
    (h1 : resolvedBoundary date1 events = some b1)
    (h2 : resolvedBoundary date2 events = some b2) :
    b1.start_date ≤ b2.start_date := by
  have hs1 := resolvedBoundary_spec date1 events h1
  have hs2 := resolvedBoundary_spec date2 events h2
  exact hs2.2.2 b1 hs1.1 (le_trans hs1.2.1 (le_of_lt h12))

/-- C6 witness: two dates inside two consecutive epochs. -/
theorem get_epoch_for_date_monotonic_witness :
    (⟨"e1", 5⟩ : EpochBoundary).start_date ≤ (⟨"e2", 8⟩ : EpochBoundary).start_date :=
  get_epoch_for_date_monotonic 6 9 [⟨"e1", 5⟩, ⟨"e2", 8⟩] ⟨"e1", 5⟩ ⟨"e2", 8⟩
    (by decide) (by decide) (by decide)

/-- C7: `over_representation` equals `(top4 / total_top4) / meta_share`,
is null whenever `meta_share = 0` (or `total_top4 = 0`), and when defined
it exceeds 1 exactly when the faction's share of top-4 slots exceeds its
share of the player population. -/
theorem over_representation_null_and_gt_one
    (top4 total_top4 player_count total_players : Nat) :
    (meta_share player_count total_players = 0 →
      over_representation top4 total_top4 player_count total_players = none)
    ∧ (total_top4 = 0 →
      over_representation top4 total_top4 player_count total_players = none)
    ∧ (meta_share player_count total_players ≠ 0 → total_top4 ≠ 0 →
      over_representation top4 total_top4 player_count total_players
          = some (mkRat top4 total_top4 / meta_share player_count total_players)
        ∧ (1 < mkRat top4 total_top4 / meta_share player_count total_players
            ↔ meta_share player_count total_players < mkRat top4 total_top4)) := by
  refine ⟨?_, ?_, ?_⟩
  · intro h
    unfold over_representation
    rw [if_pos (Or.inl h)]
  · intro h
    unfold over_representation
    rw [if_pos (Or.inr h)]
  · intro h1 h2
    have hcond : ¬ (meta_share player_count total_players = 0 ∨ total_top4 = 0) := by
      rintro (h | h)
      · exact h1 h
      · exact h2 h
    constructor
    · unfold over_representation
      rw [if_neg hcond]
    · have hge : 0 ≤ meta_share player_count total_players := by
        unfold meta_share
        rw [Rat.mkRat_eq_div]
        positivity
      have hpos : 0 < meta_share player_count total_players :=
        lt_of_le_of_ne hge (Ne.symm h1)
      exact one_lt_div hpos

/-- C7 witness: a faction holding half the top-4 slots on a quarter of the
meta is over-represented; degenerate inputs give null. -/
theorem over_representation_null_and_gt_one_witness :
    over_representation 2 4 0 4 = none
    ∧ over_representation 2 0 1 4 = none
    ∧ over_representation 2 4 1 4 = some (mkRat 2 4 / meta_share 1 4) :=
  ⟨(over_representation_null_and_gt_one 2 4 0 4).1 (by decide),
   (over_representation_null_and_gt_one 2 0 1 4).2.1 rfl,
   ((over_representation_null_and_gt_one 2 4 1 4).2.2 (by decide) (by decide)).1⟩

/-- C8: a placement record counts toward `four_zero_count` or
`five_zero_count` only when losses and draws are zero and wins is exactly
4 resp. 5; a 5-0 record increments only the five-zero counter and a 6-0
record increments neither. -/
theorem perfect_start_detection (c : StartCounts) (r : WinRecord) :
    ((updateStarts c r).four_zero_count
        = c.four_zero_count + (if r.losses = 0 ∧ r.draws = 0 ∧ r.wins = 4 then 1 else 0))
    ∧ ((updateStarts c r).five_zero_count
        = c.five_zero_count + (if r.losses = 0 ∧ r.draws = 0 ∧ r.wins = 5 then 1 else 0))
    ∧ updateStarts c ⟨5, 0, 0⟩ = ⟨c.four_zero_count, c.five_zero_count + 1⟩
    ∧ updateStarts c ⟨6, 0, 0⟩ = c := by
  refine ⟨?_, ?_, ?_, ?_⟩
  · unfold updateStarts
    split_ifs with h4 h5 h5 <;> simp
  · unfold updateStarts
    split_ifs with h4 h5 h5 <;> simp
  · unfold updateStarts
    norm_num
  · unfold updateStarts
    norm_num

/-- C10: every method of the api.js client returns `Except.error` with a
message containing the HTTP status exactly when the fetched response has
`ok = false`, and otherwise returns the response body; no other outcome
exists for a completed fetch. -/
theorem createApi_http_error_behavior
    (fetchFn : String → Response) (enc : String → String)
    (page pageSize : Option Nat) (epoch fromD toD : Option String)
    (hasResults : Bool) (id : String) :
    (((fetchFn (eventsUrl enc page pageSize epoch fromD toD hasResults)).ok = false →
        getEvents fetchFn enc page pageSize epoch fromD toD hasResults
          = Except.error ("Events API error: "
              ++ toString (fetchFn (eventsUrl enc page pageSize epoch fromD toD hasResults)).status)
        ∧ ∃ pre post, ("Events API error: "
              ++ toString (fetchFn (eventsUrl enc page pageSize epoch fromD toD hasResults)).status)
            = pre ++ toString (fetchFn (eventsUrl enc page pageSize epoch fromD toD hasResults)).status
              ++ post)
      ∧ ((fetchFn (eventsUrl enc page pageSize epoch fromD toD hasResults)).ok = true →
          getEvents fetchFn enc page pageSize epoch fromD toD hasResults
            = Except.ok (fetchFn (eventsUrl enc page pageSize epoch fromD toD hasResults)).body))
    ∧ (((fetchFn (eventUrl enc id epoch)).ok = false →
        getEvent fetchFn enc id epoch
          = Except.error ("Event API error: " ++ toString (fetchFn (eventUrl enc id epoch)).status)
        ∧ ∃ pre post, ("Event API error: " ++ toString (fetchFn (eventUrl enc id epoch)).status)
            = pre ++ toString (fetchFn (eventUrl enc id epoch)).status ++ post)
      ∧ ((fetchFn (eventUrl enc id epoch)).ok = true →
          getEvent fetchFn enc id epoch = Except.ok (fetchFn (eventUrl enc id epoch)).body))
    ∧ (((fetchFn (factionStatsUrl enc epoch fromD toD)).ok = false →
        getFactionStats fetchFn enc epoch fromD toD
          = Except.error ("Meta API error: "
              ++ toString (fetchFn (factionStatsUrl enc epoch fromD toD)).status)
        ∧ ∃ pre post, ("Meta API error: "
              ++ toString (fetchFn (factionStatsUrl enc epoch fromD toD)).status)
            = pre ++ toString (fetchFn (factionStatsUrl enc epoch fromD toD)).status ++ post)
      ∧ ((fetchFn (factionStatsUrl enc epoch fromD toD)).ok = true →
          getFactionStats fetchFn enc epoch fromD toD
            = Except.ok (fetchFn (factionStatsUrl enc epoch fromD toD)).body))
    ∧ (((fetchFn "/api/epochs").ok = false →
        getEpochs fetchFn
          = Except.error ("Epochs API error: " ++ toString (fetchFn "/api/epochs").status)
        ∧ ∃ pre post, ("Epochs API error: " ++ toString (fetchFn "/api/epochs").status)
            = pre ++ toString (fetchFn "/api/epochs").status ++ post)
      ∧ ((fetchFn "/api/epochs").ok = true →
          getEpochs fetchFn = Except.ok (fetchFn "/api/epochs").body)) := by
  refine ⟨⟨?_, ?_⟩, ⟨?_, ?_⟩, ⟨?_, ?_⟩, ⟨?_, ?_⟩⟩
  · intro h
    exact ⟨by simp [getEvents, h], "Events API error: ", "", by simp⟩
  · intro h
    simp [getEvents, h]
  · intro h
    exact ⟨by simp [getEvent, h], "Event API error: ", "", by simp⟩
  · intro h
    simp [getEvent, h]
  · intro h
    exact ⟨by simp [getFactionStats, h], "Meta API error: ", "", by simp⟩
  · intro h
    simp [getFactionStats, h]
  · intro h
    exact ⟨by simp [getEpochs, h], "Epochs API error: ", "", by simp⟩
  · intro h
    simp [getEpochs, h]

/-- C10 witness: a failing fetch surfaces the status in the thrown message,
a succeeding fetch returns the parsed body. -/
theorem createApi_http_error_behavior_witness :
    getEvents (fun _ => ⟨false, 500, "x"⟩) (fun s => s) none none none none none false
      = Except.error ("Events API error: " ++ toString (500 : Nat))
    ∧ getEpochs (fun _ => ⟨true, 200, "payload"⟩) = Except.ok "payload" :=
  ⟨((createApi_http_error_behavior (fun _ => ⟨false, 500, "x"⟩) (fun s => s)
      none none none none none false "").1.1 rfl).1,
   (createApi_http_error_behavior (fun _ => ⟨true, 200, "payload"⟩) (fun s => s)
      none none none none none false "").2.2.2.2 rfl⟩

end TournamentTracker
